import Mathlib

/-!
Verification of the generalized-web-scraper product pipeline and its
React frontend against its design document.

The TypeScript frontend (frontend/src/types.ts, App.tsx, HomePage.tsx,
ProductDetailPage.tsx) is embedded directly.  The Python backend
(html_parser.py, image_processor.py, ai.py, api.py, models.py) is not part
of the available sources; the definitions for it are modelled from the
design document and are marked as such in their doc comments.

JavaScript numbers are modelled as rationals; JavaScript strings as Lean
strings.  Helper functions over lists of characters replace the opaque
platform string routines so that every definition evaluates inside the
kernel.
-/

namespace Scraper

/-! ### Character-list string helpers

These model the JavaScript platform string operations used by the sources
(String.prototype.trim, splitting on a separator, prefix tests) as
structurally recursive functions over the character list of a string. -/

/-- Model of JavaScript String.prototype.trim: drop whitespace characters
from both ends of the character list. -/
def jsTrimChars (l : List Char) : List Char :=
  ((l.dropWhile Char.isWhitespace).reverse.dropWhile Char.isWhitespace).reverse

/-- Model of JavaScript String.prototype.trim on strings. -/
def jsTrim (s : String) : String :=
  String.mk (jsTrimChars s.data)

/-- Split a character list on a separator character; always returns at
least one (possibly empty) chunk, like String.prototype.split. -/
def splitOnChar (sep : Char) : List Char → List (List Char)
  | [] => [[]]
  | c :: cs =>
    match splitOnChar sep cs, decide (c = sep) with
    | r, true => [] :: r
    | [], false => [[c]]
    | h :: t, false => (c :: h) :: t

/-- Boolean prefix test on character lists. -/
def hasPrefixChars : List Char → List Char → Bool
  | [], _ => true
  | _ :: _, [] => false
  | p :: ps, c :: cs => decide (p = c) && hasPrefixChars ps cs

/-- Boolean suffix test on character lists. -/
def hasSuffixChars (p l : List Char) : Bool :=
  hasPrefixChars p.reverse l.reverse

/-- Numeric value of a decimal digit character, if it is one. -/
def digitVal (c : Char) : Option ℕ :=
  if ('0' ≤ c ∧ c ≤ '9') then some (c.toNat - 48) else none

/-- Accumulating decimal parse over a character list. -/
def parseNatAux : List Char → ℕ → Option ℕ
  | [], acc => some acc
  | c :: cs, acc =>
    match digitVal c with
    | some d => parseNatAux cs (acc * 10 + d)
    | none => none

/-- Parse a nonempty all-digit character list as a natural number. -/
def parseNatChars : List Char → Option ℕ
  | [] => none
  | c :: cs => parseNatAux (c :: cs) 0

/-! ### Frontend data model (frontend/src/types.ts)

The interfaces Price, Category, ProductVariant and Product are embedded
field for field.  The TypeScript index signature on Product
(string-indexed unknown) is a dynamic-access affordance for the React
code, not a declared data field, and is not part of the record. -/

/-- Price from types.ts: price and currency are required, the compare-at
amount is nullable. -/
structure Price where
  price : ℚ
  currency : String
  compare_at_price : Option ℚ
deriving DecidableEq, Repr

/-- Category from types.ts: a single required name. -/
structure Category where
  name : String
deriving DecidableEq, Repr

/-- ProductVariant from types.ts: every field is individually optional
(optional and nullable in the TypeScript declaration). -/
structure ProductVariant where
  sku : Option String
  color : Option String
  size : Option String
  price : Option ℚ
  image_url : Option String
deriving DecidableEq, Repr

/-- Product from types.ts, with the fields in declaration order. -/
structure Product where
  id : ℚ
  name : String
  price : Price
  description : String
  key_features : List String
  image_urls : List String
  video_url : Option String
  category : Category
  brand : String
  colors : List String
  variants : List ProductVariant
deriving DecidableEq, Repr

/-- Tuple of all Product fields, in declaration order. -/
def Product.toFields (p : Product) :
    ℚ × String × Price × String × List String × List String × Option String ×
      Category × String × List String × List ProductVariant :=
  (p.id, p.name, p.price, p.description, p.key_features, p.image_urls,
    p.video_url, p.category, p.brand, p.colors, p.variants)

/-- Rebuild a Product from the tuple of its fields. -/
def Product.ofFields :
    ℚ × String × Price × String × List String × List String × Option String ×
      Category × String × List String × List ProductVariant → Product
  | (i, n, pr, de, kf, iu, vu, ca, br, co, va) =>
    ⟨i, n, pr, de, kf, iu, vu, ca, br, co, va⟩

/-- Tuple of all Price fields. -/
def Price.toFields (p : Price) : ℚ × String × Option ℚ :=
  (p.price, p.currency, p.compare_at_price)

/-- Rebuild a Price from the tuple of its fields. -/
def Price.ofFields : ℚ × String × Option ℚ → Price
  | (a, c, ca) => ⟨a, c, ca⟩

/-- Tuple of all ProductVariant fields. -/
def ProductVariant.toFields (v : ProductVariant) :
    Option String × Option String × Option String × Option ℚ × Option String :=
  (v.sku, v.color, v.size, v.price, v.image_url)

/-- Rebuild a ProductVariant from the tuple of its fields. -/
def ProductVariant.ofFields :
    Option String × Option String × Option String × Option ℚ × Option String →
      ProductVariant
  | (s, c, z, p, i) => ⟨s, c, z, p, i⟩

/-- Tuple (here: single value) of all Category fields. -/
def Category.toFields (c : Category) : String := c.name

/-- Rebuild a Category from its single field. -/
def Category.ofFields (n : String) : Category := ⟨n⟩

/-! ### Runtime product view and price formatting
(frontend/src/App.tsx, HomePage.tsx, ProductDetailPage.tsx)

The pages read fetched JSON defensively: optional chaining on the price
object and its members, nullish coalescing on the list fields.  The
runtime view therefore wraps each read field in Option. -/

/-- Runtime view of the price object as the pages read it: both members
may be null or undefined even though types.ts declares them required. -/
structure JPrice where
  price : Option ℚ
  currency : Option String
deriving DecidableEq, Repr

/-- Model of the platform Intl.NumberFormat("en-US", style currency)
formatter invoked by formatPrice: a deterministic, nonempty rendering of
the currency code and the amount.  The claims rely only on determinism
and nonemptiness of the formatted output. -/
def intlFormatCurrency (currency : String) (amount : ℚ) : String :=
  currency ++ " " ++ toString amount

/-- Currency actually passed to the formatter by formatPrice: the trimmed
currency of the price object when that is truthy, else the fixed fallback
"USD" (the JavaScript expression product.price?.currency?.trim() || "USD",
where null, undefined and the empty string are falsy). -/
def effectiveCurrency (priceObj : Option JPrice) : String :=
  match (priceObj.bind JPrice.currency).map jsTrim with
  | some t => if t = "" then "USD" else t
  | none => "USD"

/-- formatPrice from App.tsx, HomePage.tsx and ProductDetailPage.tsx
(three identical copies).  It reads only product.price, so the embedding
takes that price object directly: empty string when price?.price is null
or undefined, otherwise the Intl-formatted amount under the effective
currency. -/
def formatPrice (priceObj : Option JPrice) : String :=
  match priceObj.bind JPrice.price with
  | none => ""
  | some p => intlFormatCurrency (effectiveCurrency priceObj) p

/-- Currency-absence condition of claim C2: the price object or its
currency is null or undefined, or the currency is empty or
whitespace-only (trims to the empty string). -/
def currencyBlank (priceObj : Option JPrice) : Bool :=
  match priceObj.bind JPrice.currency with
  | none => true
  | some c => decide (jsTrim c = "")

/-- Price element of a catalog card in App.tsx and HomePage.tsx: the JSX
conditional renders the element only when formatPrice yields a truthy
(nonempty) string. -/
def cardPriceShown (priceObj : Option JPrice) : Option String :=
  if formatPrice priceObj = "" then none else some (formatPrice priceObj)

/-! ### Product detail page (frontend/src/pages/ProductDetailPage.tsx)

The page derives its display state from the fetched product and two
pieces of React state: the selected color and the selected thumbnail
index. -/

/-- JavaScript truthiness of a nullable string: null, undefined and the
empty string are falsy. -/
def jsTruthyStr : Option String → Bool
  | none => false
  | some s => !(decide (s = ""))

/-- Variant list as the page reads it: product.variants coalesced with
the empty list. -/
def pdpVariants (variants : Option (List ProductVariant)) : List ProductVariant :=
  variants.getD []

/-- selectedVariant from ProductDetailPage.tsx: when the selected color is
truthy, the first variant whose color strictly equals it, else null. -/
def selectedVariantOf (variants : List ProductVariant)
    (selectedColor : Option String) : Option ProductVariant :=
  match selectedColor with
  | none => none
  | some c =>
    if c = "" then none else variants.find? (fun w => w.color == some c)

/-- variantImageUrl from ProductDetailPage.tsx: the image_url of the
selected variant, coalesced with null. -/
def variantImageUrlOf (variants : List ProductVariant)
    (selectedColor : Option String) : Option String :=
  (selectedVariantOf variants selectedColor).bind ProductVariant.image_url

/-- displayImageUrl from ProductDetailPage.tsx: the variant image when it
is not null, else the image at the selected thumbnail index, else the
first image. -/
def displayImageUrlOf (imageUrls : List String) (idx : ℕ)
    (variants : List ProductVariant) (selectedColor : Option String) :
    Option String :=
  match variantImageUrlOf variants selectedColor with
  | some u => some u
  | none =>
    match imageUrls.get? idx with
    | some u => some u
    | none => imageUrls.get? 0

/-- Condition under which the thumbnail strip is rendered:
imageUrls.length greater than one and the variant image falsy. -/
def thumbsShown (imageUrls : List String) (variants : List ProductVariant)
    (selectedColor : Option String) : Bool :=
  decide (imageUrls.length > 1) &&
    !(jsTruthyStr (variantImageUrlOf variants selectedColor))

/-- Thumbnail strip contents: the first four image URLs in document order
when the strip is rendered, else nothing. -/
def pdpThumbs (imageUrls : List String) (variants : List ProductVariant)
    (selectedColor : Option String) : List String :=
  if thumbsShown imageUrls variants selectedColor then imageUrls.take 4 else []

/-! ### Backend extraction pipeline

Modelled from the spec: the Python backend (html_parser.py,
image_processor.py, ai.py, api.py, models.py) is not among the available
sources, so the five pipeline components of the design document are
modelled from its text.  Documents are carried as raw text; the modelled
parser reads one signal per line — structured-data fields on lines with
the marker ld:, metadata tags on lines with the marker meta: (key=value
after the marker), narrative content on lines with the marker text:, and
image references on lines with the marker img: (URL, then optional width
and height separated by a vertical bar). -/

/-- Modelled from the spec: a raw input document — identifier, source
origin locator, raw page text.  Immutable for the duration of a run. -/
structure RawDocument where
  id : ℚ
  origin : String
  html : String
deriving DecidableEq, Repr

/-- Modelled from the spec: provenance tag of a truth-sheet value. -/
inductive FieldOrigin where
  | structuredData
  | metadataTag
deriving DecidableEq, Repr

/-- Modelled from the spec: one truth-sheet entry — canonical field name,
extracted value, provenance. -/
structure TruthEntry where
  field : String
  value : String
  origin : FieldOrigin
deriving DecidableEq, Repr

/-- Modelled from the spec: an image candidate — source URL, inferred
dimensions when derivable, and a document-order hint. -/
structure ImageCandidate where
  url : String
  width : Option ℕ
  height : Option ℕ
  order : ℕ
deriving DecidableEq, Repr

/-- Lines of a document text. -/
def docLines (html : String) : List (List Char) :=
  splitOnChar (Char.ofNat 10) html.data

/-- Remainder of a line after a given marker, when the line carries it. -/
def lineValue (marker : String) (l : List Char) : Option (List Char) :=
  if hasPrefixChars marker.data l then some (l.drop marker.data.length) else none

/-- Join character chunks with a separator character. -/
def joinWith (sep : Char) : List (List Char) → List Char
  | [] => []
  | [x] => x
  | x :: xs => x ++ sep :: joinWith sep xs

/-- Split a key=value chunk at the first equals sign; the value may itself
contain further equals signs. -/
def parseKV (l : List Char) : Option (String × String) :=
  match splitOnChar '=' l with
  | [] => none
  | [_] => none
  | k :: rest => some (String.mk k, String.mk (joinWith '=' rest))

/-- Modelled from the spec: the fixed lookup table from source vocabulary
to canonical Product field names — no heuristic guessing beyond it. -/
def canonicalFieldTable : List (String × String) :=
  [("name", "name"), ("og:title", "name"),
   ("brand", "brand"),
   ("price", "price"), ("offers.price", "price"), ("og:price:amount", "price"),
   ("currency", "currency"), ("og:price:currency", "currency"),
   ("description", "description"), ("og:description", "description"),
   ("image", "image"), ("og:image", "image")]

/-- Canonical name of a source field, when the table has it. -/
def canonicalOf (k : String) : Option String :=
  canonicalFieldTable.lookup k

/-- Fields found on lines carrying the given marker, mapped to canonical
names; unmapped keys and malformed lines are dropped, isolating failures
per block. -/
def taggedFields (marker : String) (html : String) : List (String × String) :=
  (docLines html).filterMap (fun l =>
    match lineValue marker l with
    | none => none
    | some rest =>
      match parseKV rest with
      | none => none
      | some kv =>
        match canonicalOf kv.1 with
        | none => none
        | some ck => some (ck, kv.2))

/-- Modelled from the spec: the Structured-Data Extractor — canonical
fields from structured-data blocks override same-named fields from
metadata tags; remaining metadata fields follow with their provenance. -/
def truthSheetOf (html : String) : List TruthEntry :=
  (taggedFields "ld:" html).map
      (fun kv => TruthEntry.mk kv.1 kv.2 FieldOrigin.structuredData) ++
    ((taggedFields "meta:" html).filter
        (fun kv => !((taggedFields "ld:" html).map Prod.fst).contains kv.1)).map
      (fun kv => TruthEntry.mk kv.1 kv.2 FieldOrigin.metadataTag)

/-- Modelled from the spec: the Content Distiller — the narrative lines of
the document joined into one block, the empty string when there are
none. -/
def distillOf (html : String) : String :=
  String.mk (joinWith (Char.ofNat 10)
    ((docLines html).filterMap (lineValue "text:")))

/-- Truth sheet of a document, a pure function of its raw text. -/
def docTruthSheet (d : RawDocument) : List TruthEntry :=
  truthSheetOf d.html

/-- Distilled content of a document, a pure function of its raw text. -/
def docDistill (d : RawDocument) : String :=
  distillOf d.html

/-- One image-reference line: URL, optional width, optional height. -/
def imageLine (ord : ℕ) (l : List Char) : ImageCandidate :=
  match splitOnChar '|' l with
  | [] => ⟨"", none, none, ord⟩
  | [u] => ⟨String.mk u, none, none, ord⟩
  | [u, w] => ⟨String.mk u, parseNatChars w, none, ord⟩
  | u :: w :: h :: _ => ⟨String.mk u, parseNatChars w, parseNatChars h, ord⟩

/-- Modelled from the spec: stage 1 of the Image Candidate Pipeline —
collect every image reference with its contextual order. -/
def extractImages (html : String) : List ImageCandidate :=
  ((docLines html).filterMap (lineValue "img:")).enum.map
    (fun p => imageLine p.1 p.2)

/-- Modelled from the spec: URL normalization for deduplication strips the
recognized CDN resize/query parameters that do not change image identity;
modelled as dropping the query string. -/
def normalizeUrl (url : String) : String :=
  String.mk (url.data.takeWhile (fun c => !(decide (c = '?'))))

/-- Content-identity key of a candidate: its normalized URL. -/
def keyOf (c : ImageCandidate) : String :=
  normalizeUrl c.url

/-- Inferred pixel area of a candidate; unknown dimensions count zero, so
known-good candidates are preferred. -/
def area (c : ImageCandidate) : ℕ :=
  c.width.getD 0 * c.height.getD 0

/-- Modelled from the spec: minimum pixel-dimension threshold of the
quality filter (a stated default, not a hard requirement). -/
def minDim : ℕ := 100

/-- Modelled from the spec: allowed product-image file extensions. -/
def allowedExtensions : List String :=
  [".jpg", ".jpeg", ".png", ".webp"]

/-- Extension check against the normalized URL. -/
def allowedExt (url : String) : Bool :=
  allowedExtensions.any (fun e => hasSuffixChars e.data (normalizeUrl url).data)

/-- Modelled from the spec: plausible product-photo aspect ratio, between
one third and three. -/
def plausibleAspect (w h : ℕ) : Bool :=
  decide (w ≤ 3 * h) && decide (h ≤ 3 * w)

/-- Modelled from the spec: stage 2 quality filter — reject candidates
below the dimension threshold, outside the aspect range, or with a
disallowed extension; unknown dimensions are not auto-rejected. -/
def qualityOk (c : ImageCandidate) : Bool :=
  allowedExt c.url &&
    (match c.width, c.height with
     | some w, some h =>
       decide (minDim ≤ w) && decide (minDim ≤ h) && plausibleAspect w h
     | _, _ => true)

/-- Candidates of a list sharing a given content-identity key. -/
def candidatesWithKey (k : String) (l : List ImageCandidate) :
    List ImageCandidate :=
  l.filter (fun c => keyOf c == k)

/-- Keep the candidate with the larger inferred dimensions, the earlier
one on ties. -/
def better (c d : ImageCandidate) : ImageCandidate :=
  if area c < area d then d else c

/-- Highest-quality representative of a candidate group. -/
def pickBest : List ImageCandidate → Option ImageCandidate
  | [] => none
  | c :: cs => some (cs.foldl better c)

/-- Modelled from the spec: stage 3 deduplication — collapse candidates
with equal normalized URLs to the representative with the largest
inferred dimensions, one group per first key occurrence. -/
def dedupImages (l : List ImageCandidate) : List ImageCandidate :=
  ((l.map keyOf).dedup).filterMap (fun k => pickBest (candidatesWithKey k l))

/-- Substring containment test on character lists. -/
def containsChars (pat : List Char) : List Char → Bool
  | [] => hasPrefixChars pat []
  | c :: cs => hasPrefixChars pat (c :: cs) || containsChars pat cs

/-- Modelled from the spec: composite ranking score favoring larger size
and e-commerce-pattern path matches. -/
def score (c : ImageCandidate) : ℕ :=
  area c + (if containsChars "/product".data (normalizeUrl c.url).data
            then 1000 else 0)

/-- Ranking order: higher score first, original document order as the
tie-break. -/
def rankLE (c d : ImageCandidate) : Bool :=
  decide (score d < score c) ||
    (decide (score d = score c) && decide (c.order ≤ d.order))

/-- Ordered insertion for the ranking stage. -/
def insertRanked (c : ImageCandidate) : List ImageCandidate → List ImageCandidate
  | [] => [c]
  | d :: ds => if rankLE c d then c :: d :: ds else d :: insertRanked c ds

/-- Modelled from the spec: stage 4 ranking by the composite score. -/
def rankCandidates : List ImageCandidate → List ImageCandidate
  | [] => []
  | c :: cs => insertRanked c (rankCandidates cs)

/-- Modelled from the spec: the full Image Candidate Pipeline — extract,
quality-filter, deduplicate, rank. -/
def imagePipeline (html : String) : List ImageCandidate :=
  rankCandidates (dedupImages ((extractImages html).filter qualityOk))

/-- Verified image URLs of a document: the URLs of the candidates that
survived the pipeline, in ranked order. -/
def verifiedImageUrls (html : String) : List String :=
  (imagePipeline html).map ImageCandidate.url

/-! ### Schema hydrator and orchestrator (modelled) -/

/-- Modelled from the spec: the generation request — truth sheet,
distilled content, and the ordered verified image URLs. -/
structure GenInput where
  sheet : List TruthEntry
  content : String
  images : List String
deriving DecidableEq, Repr

/-- Modelled from the spec: the price object of a generation response,
before schema validation, every member still unchecked. -/
structure GenPrice where
  price : Option ℚ
  currency : Option String
  compare_at_price : Option ℚ
deriving DecidableEq, Repr

/-- Modelled from the spec: a decoded generation response before schema
validation.  The generator is constrained to select image URLs from the
closed verified set supplied in the request, modelled by returning
selection indices into that list; every other field may be absent and is
checked by validation. -/
structure GenResponse where
  name : Option String
  brand : Option String
  price : Option GenPrice
  description : Option String
  key_features : Option (List String)
  image_selection : List ℕ
  video_url : Option String
  category : Option String
  colors : Option (List String)
  variants : Option (List ProductVariant)
deriving DecidableEq, Repr

/-- Modelled from the spec: the generation service as seen through the
transport layer — a response for a given request and attempt number, or a
transport failure for that attempt. -/
def GenService : Type :=
  GenInput → ℕ → Option GenResponse

/-- Modelled from the spec: strict schema validation of a generation
response.  Every required field must be present (name, brand, price with
a present amount, description, key features, category, colors, variants —
a null or absent variants list is rejected, the list may be empty);
numeric price fields must be non-negative; an absent currency defaults to
the fixed fallback rather than failing; the image URLs are resolved from
the selection against the verified list, so none outside it can appear. -/
def validateResponse (id : ℚ) (verified : List String) (r : GenResponse) :
    Option Product :=
  match r.name, r.brand, r.price, r.description, r.key_features,
      r.category, r.colors, r.variants with
  | some n, some b, some pr, some de, some kf, some cat, some co, some va =>
    match pr.price with
    | none => none
    | some amt =>
      if 0 ≤ amt ∧ 0 ≤ pr.compare_at_price.getD 0 then
        some ⟨id, n, ⟨amt, pr.currency.getD "USD", pr.compare_at_price⟩, de, kf,
          r.image_selection.filterMap (fun i => verified.get? i),
          r.video_url, ⟨cat⟩, b, co, va⟩
      else none
  | _, _, _, _, _, _, _, _ => none

/-- Modelled from the spec: retry budget of the generation call. -/
def maxAttempts : ℕ := 3

/-- Modelled from the spec: bounded retry over the generation service,
counting attempts until one yields a response or the budget runs out. -/
def callGenAux (env : GenService) (inp : GenInput) :
    ℕ → ℕ → Option GenResponse
  | _, 0 => none
  | attempt, rem + 1 =>
    match env inp attempt with
    | some r => some r
    | none => callGenAux env inp (attempt + 1) rem

/-- Modelled from the spec: the generation call with its bounded retry. -/
def callGen (env : GenService) (inp : GenInput) : Option GenResponse :=
  callGenAux env inp 0 maxAttempts

/-- Modelled from the spec: the per-document pipeline — extractor,
distiller and image pipeline feed the hydrator; a transport failure after
all retries or a validation failure yields no product for the document. -/
def processDoc (env : GenService) (d : RawDocument) : Option Product :=
  match callGen env ⟨truthSheetOf d.html, distillOf d.html,
      verifiedImageUrls d.html⟩ with
  | none => none
  | some r => validateResponse d.id (verifiedImageUrls d.html) r

/-- Modelled from the spec: the Pipeline Orchestrator — run the
per-document sequence over every document, skipping documents that fail
at any stage and collecting the products of those that succeed. -/
def runPipeline (env : GenService) : List RawDocument → List Product
  | [] => []
  | d :: ds =>
    match processDoc env d with
    | some p => p :: runPipeline env ds
    | none => runPipeline env ds

/-! ### Concrete pipeline run used by the witnesses -/

/-- Demonstration document: one structured-data field, one metadata tag,
one narrative line, and two image references that normalize to the same
identity (the second only adds a CDN resize parameter). -/
def demoDoc : RawDocument :=
  ⟨7, "data/demo.html",
    "ld:name=Shoe\nmeta:og:image=http://cdn/a.jpg\ntext:Nice shoe\nimg:http://cdn/a.jpg|800|800\nimg:http://cdn/a.jpg?resize=300|300|300"⟩

/-- Copy of the demonstration document under another identifier and
origin, with byte-identical text. -/
def demoDocCopy : RawDocument :=
  ⟨9, "data/demo-copy.html", demoDoc.html⟩

/-- Demonstration generation response: every required field present, the
amounts non-negative, the image selection picking the first verified
URL. -/
def demoResponse : GenResponse :=
  ⟨some "Shoe", some "Acme", some ⟨some 50, none, some 60⟩, some "Nice shoe",
    some ["Comfort"], [0], none, some "Footwear", some ["Red"], some []⟩

/-- Demonstration generation service answering every request on the first
attempt. -/
def demoEnv : GenService := fun _ _ => some demoResponse

/-- Product that the demonstration run yields for the demonstration
document. -/
def demoProduct : Product :=
  ⟨7, "Shoe", ⟨50, "USD", some 60⟩, "Nice shoe", ["Comfort"],
    ["http://cdn/a.jpg"], none, ⟨"Footwear"⟩, "Acme", ["Red"], []⟩

/-- Generation service that times out on every attempt for documents with
no distilled content and answers normally otherwise. -/
def flakyEnv : GenService := fun inp _ =>
  if inp.content = "" then none else some demoResponse

/-- Document with no narrative line, so the flaky service fails it on all
retry attempts. -/
def badDoc : RawDocument :=
  ⟨8, "data/bad.html", "ld:name=X"⟩

/-! ### Claim theorems and witnesses -/

/-- C1: a Product record consists of exactly the schema fields of the
design document — id, name, brand, a price object of amount, currency and
optional compare-at amount, description, ordered key-feature list, ordered
image-URL list, nullable video URL, a category object with a name, ordered
color list, and a variant list whose entries have individually optional
SKU, color, size, price override and image override.  Formally, each of
the four record types is in bijection with the tuple of exactly those
fields, via the field projections. -/
theorem C1_product_schema_fields :
    (∀ p : Product, Product.ofFields p.toFields = p) ∧
    (∀ t, (Product.ofFields t).toFields = t) ∧
    (∀ p : Price, Price.ofFields p.toFields = p) ∧
    (∀ t, (Price.ofFields t).toFields = t) ∧
    (∀ v : ProductVariant, ProductVariant.ofFields v.toFields = v) ∧
    (∀ t, (ProductVariant.ofFields t).toFields = t) ∧
    (∀ c : Category, Category.ofFields c.toFields = c) ∧
    (∀ n, (Category.ofFields n).toFields = n) := by
  refine ⟨fun p => rfl, fun t => ?_, fun p => rfl, fun t => ?_,
    fun v => rfl, fun t => ?_, fun c => rfl, fun n => rfl⟩
  · obtain ⟨i, n, pr, de, kf, iu, vu, ca, br, co, va⟩ := t; rfl
  · obtain ⟨a, c, ca⟩ := t; rfl
  · obtain ⟨s, c, z, p, i⟩ := t; rfl

/-- The modelled Intl currency formatter never returns the empty string. -/
theorem intlFormatCurrency_ne_empty (c : String) (q : ℚ) :
    intlFormatCurrency c q ≠ "" := by
  intro h
  have hd := congrArg String.data h
  simp [intlFormatCurrency, String.data_append] at hd

/-- C2 (counterexample to the claim as stated): a product whose price
object has null amount and null currency satisfies the currency-absence
condition, yet formatPrice returns the empty string, not a formatted
price string. -/
theorem C2_fallback_counterexample :
    ¬ (∀ p : Option JPrice, currencyBlank p = true → formatPrice p ≠ "") := by
  intro h
  exact h (some ⟨none, none⟩) rfl rfl

/-- C2 (amended): for every product whose price currency is absent (null,
undefined, empty or whitespace-only), price formatting does not fail:
formatPrice substitutes the fixed fallback "USD" and, whenever
price.price is present, returns a nonempty price string formatted with
"USD"; when price.price is absent it returns the empty string. -/
theorem C2_currency_fallback (p : Option JPrice) (h : currencyBlank p = true) :
    effectiveCurrency p = "USD" ∧
    (∀ q, p.bind JPrice.price = some q →
        formatPrice p = intlFormatCurrency "USD" q ∧ formatPrice p ≠ "") ∧
    (p.bind JPrice.price = none → formatPrice p = "") := by
  have husd : effectiveCurrency p = "USD" := by
    unfold effectiveCurrency
    unfold currencyBlank at h
    cases hc : p.bind JPrice.currency with
    | none => simp [hc]
    | some c =>
      rw [hc] at h
      simp only [decide_eq_true_eq] at h
      simp [hc, h]
  refine ⟨husd, fun q hq => ?_, fun hq => ?_⟩
  · rw [formatPrice, hq, husd]
    exact ⟨rfl, intlFormatCurrency_ne_empty "USD" q⟩
  · rw [formatPrice, hq]

/-- C2 witness: the amended theorem applied at a concrete price object
with a whitespace-only currency and a present amount. -/
theorem C2_currency_fallback_witness :
    effectiveCurrency (some ⟨some 50, some " "⟩) = "USD" ∧
    formatPrice (some ⟨some 50, some " "⟩) = intlFormatCurrency "USD" 50 := by
  have h := C2_currency_fallback (some ⟨some 50, some " "⟩) (by decide)
  exact ⟨h.1, (h.2.1 50 rfl).1⟩

/-- C9: formatPrice returns the empty string exactly when the runtime
price amount is null or undefined, and a nonempty currency-formatted
string otherwise; the price element of a catalog card is rendered exactly
when formatPrice is nonempty, so products without a numeric price show no
price at all. -/
theorem C9_formatPrice_grid (p : Option JPrice) :
    (formatPrice p = "" ↔ p.bind JPrice.price = none) ∧
    (∀ q, p.bind JPrice.price = some q →
        formatPrice p = intlFormatCurrency (effectiveCurrency p) q ∧
        formatPrice p ≠ "") ∧
    (cardPriceShown p = none ↔ formatPrice p = "") ∧
    (∀ s, cardPriceShown p = some s → s = formatPrice p ∧ s ≠ "") := by
  refine ⟨?_, fun q hq => ?_, ?_, fun s hs => ?_⟩
  · constructor
    · intro h
      cases hq : p.bind JPrice.price with
      | none => rfl
      | some q =>
        rw [formatPrice, hq] at h
        exact absurd h (intlFormatCurrency_ne_empty _ q)
    · intro h; rw [formatPrice, h]
  · rw [formatPrice, hq]
    exact ⟨rfl, intlFormatCurrency_ne_empty _ q⟩
  · constructor
    · intro h
      by_contra hne
      simp [cardPriceShown, hne] at h
    · intro h; simp [cardPriceShown, h]
  · unfold cardPriceShown at hs
    by_cases he : formatPrice p = ""
    · simp [he] at hs
    · simp [he] at hs
      exact ⟨hs.symm, hs ▸ he⟩

/-- C9 witness: the theorem applied at a concrete price object with a
present amount and currency, and at one with a null amount. -/
theorem C9_formatPrice_grid_witness :
    formatPrice (some ⟨some 50, some "EUR"⟩) ≠ "" ∧
    formatPrice (some ⟨none, some "EUR"⟩) = "" := by
  refine ⟨((C9_formatPrice_grid (some ⟨some 50, some "EUR"⟩)).2.1 50 rfl).2, ?_⟩
  exact (C9_formatPrice_grid (some ⟨none, some "EUR"⟩)).1.mpr rfl

/-- C10 (counterexample to the claim as stated): the selected color "Red"
equals the color of a variant whose image_url is non-null ("v.jpg"), yet
the displayed image is the first gallery image, not that variant image,
and the thumbnail strip is rendered — because the page takes the first
variant matching the color, which here has a null image_url. -/
theorem C10_variant_image_counterexample :
    (∃ v ∈ ([⟨none, some "Red", none, none, none⟩,
             ⟨none, some "Red", none, none, some "v.jpg"⟩] :
              List ProductVariant),
        v.color = some "Red" ∧ v.image_url = some "v.jpg") ∧
    displayImageUrlOf ["a.jpg", "b.jpg"] 0
        [⟨none, some "Red", none, none, none⟩,
         ⟨none, some "Red", none, none, some "v.jpg"⟩] (some "Red") =
      some "a.jpg" ∧
    displayImageUrlOf ["a.jpg", "b.jpg"] 0
        [⟨none, some "Red", none, none, none⟩,
         ⟨none, some "Red", none, none, some "v.jpg"⟩] (some "Red") ≠
      some "v.jpg" ∧
    thumbsShown ["a.jpg", "b.jpg"]
        [⟨none, some "Red", none, none, none⟩,
         ⟨none, some "Red", none, none, some "v.jpg"⟩] (some "Red") = true := by
  decide

/-- C10 (amended): whenever the selected color is a nonempty string c and
the first variant whose color equals c has a non-null image_url u, the
main displayed image is u, overriding any thumbnail selection, and the
thumbnail strip (at most the first four image URLs, in document order) is
rendered only when there are at least two image URLs and u is the empty
string — in particular it is not rendered when u is nonempty; when no
variant image results (color not selected, no variant found, or a null
image_url on the found variant), the displayed image is the image at the
selected index, falling back to the first image. -/
theorem C10_variant_image_display (imageUrls : List String) (idx : ℕ)
    (variants : List ProductVariant) (selectedColor : Option String) :
    (∀ c v u, selectedColor = some c → c ≠ "" →
        variants.find? (fun w => w.color == some c) = some v →
        v.image_url = some u →
        variantImageUrlOf variants selectedColor = some u ∧
        displayImageUrlOf imageUrls idx variants selectedColor = some u ∧
        thumbsShown imageUrls variants selectedColor =
          (decide (imageUrls.length > 1) && decide (u = "")) ∧
        (u ≠ "" → pdpThumbs imageUrls variants selectedColor = [])) ∧
    (variantImageUrlOf variants selectedColor = none →
        displayImageUrlOf imageUrls idx variants selectedColor =
          (imageUrls.get? idx).orElse (fun _ => imageUrls.get? 0) ∧
        thumbsShown imageUrls variants selectedColor =
          decide (imageUrls.length > 1)) := by
  constructor
  · intro c v u hsel hc hfind himg
    have hvar : variantImageUrlOf variants selectedColor = some u := by
      rw [hsel, variantImageUrlOf, selectedVariantOf]
      simp only [if_neg hc, hfind, Option.bind_some]
      exact himg
    refine ⟨hvar, ?_, ?_, ?_⟩
    · rw [displayImageUrlOf, hvar]
    · rw [thumbsShown, hvar, jsTruthyStr, Bool.not_not]
    · intro hu
      rw [pdpThumbs, thumbsShown, hvar, jsTruthyStr, Bool.not_not]
      simp [hu]
  · intro hvar
    refine ⟨?_, ?_⟩
    · rw [displayImageUrlOf, hvar]
      cases imageUrls.get? idx with
      | none => simp [Option.orElse]
      | some u => simp [Option.orElse]
    · rw [thumbsShown, hvar, jsTruthyStr]
      simp

/-- C10 witness: the amended theorem applied at a concrete page state in
which the first matching variant carries the image override. -/
theorem C10_variant_image_display_witness :
    displayImageUrlOf ["a.jpg", "b.jpg"] 1
        [⟨none, some "Red", none, none, some "v.jpg"⟩] (some "Red") =
      some "v.jpg" ∧
    pdpThumbs ["a.jpg", "b.jpg"]
        [⟨none, some "Red", none, none, some "v.jpg"⟩] (some "Red") = [] := by
  have h := (C10_variant_image_display ["a.jpg", "b.jpg"] 1
      [⟨none, some "Red", none, none, some "v.jpg"⟩] (some "Red")).1
      "Red" ⟨none, some "Red", none, none, some "v.jpg"⟩ "v.jpg"
      rfl (by decide) (by decide) rfl
  exact ⟨h.2.1, h.2.2.2 (by decide)⟩

/-- Soundness of the modelled schema validation: a validated product has a
non-negative price amount, image URLs drawn from the verified list, the
identifier it was given, and the variant list the response supplied. -/
theorem validateResponse_sound (id : ℚ) (verified : List String)
    (r : GenResponse) (p : Product)
    (h : validateResponse id verified r = some p) :
    0 ≤ p.price.price ∧ (∀ u ∈ p.image_urls, u ∈ verified) ∧
      p.id = id ∧ ∃ vs, r.variants = some vs ∧ p.variants = vs := by
  cases hn : r.name with
  | none => simp [validateResponse, hn] at h
  | some n =>
  cases hb : r.brand with
  | none => simp [validateResponse, hn, hb] at h
  | some b =>
  cases hpr : r.price with
  | none => simp [validateResponse, hn, hb, hpr] at h
  | some pr =>
  cases hde : r.description with
  | none => simp [validateResponse, hn, hb, hpr, hde] at h
  | some de =>
  cases hkf : r.key_features with
  | none => simp [validateResponse, hn, hb, hpr, hde, hkf] at h
  | some kf =>
  cases hcat : r.category with
  | none => simp [validateResponse, hn, hb, hpr, hde, hkf, hcat] at h
  | some cat =>
  cases hco : r.colors with
  | none => simp [validateResponse, hn, hb, hpr, hde, hkf, hcat, hco] at h
  | some co =>
  cases hva : r.variants with
  | none => simp [validateResponse, hn, hb, hpr, hde, hkf, hcat, hco, hva] at h
  | some va =>
  cases hamt : pr.price with
  | none =>
    simp [validateResponse, hn, hb, hpr, hde, hkf, hcat, hco, hva, hamt] at h
  | some amt =>
    rw [validateResponse] at h
    simp only [hn, hb, hpr, hde, hkf, hcat, hco, hva, hamt] at h
    split_ifs at h with hcond
    · injection h with h
      subst h
      refine ⟨hcond.1, ?_, rfl, va, rfl, rfl⟩
      intro u hu
      obtain ⟨i, _, hgi⟩ := List.mem_filterMap.mp hu
      exact List.get?_mem hgi

/-- Soundness of the modelled per-document pipeline: a produced product
has a non-negative price amount, image URLs drawn from the verified
candidate URLs of its document, and the document identifier. -/
theorem processDoc_sound (env : GenService) (d : RawDocument) (p : Product)
    (h : processDoc env d = some p) :
    0 ≤ p.price.price ∧ (∀ u ∈ p.image_urls, u ∈ verifiedImageUrls d.html) ∧
      p.id = d.id := by
  rw [processDoc] at h
  cases hc : callGen env ⟨truthSheetOf d.html, distillOf d.html,
      verifiedImageUrls d.html⟩ with
  | none => rw [hc] at h; cases h
  | some r =>
    rw [hc] at h
    have hs := validateResponse_sound d.id (verifiedImageUrls d.html) r p h
    exact ⟨hs.1, hs.2.1, hs.2.2.1⟩

/-- Every product of a pipeline run comes from processing one of the input
documents. -/
theorem runPipeline_mem (env : GenService) (docs : List RawDocument)
    (p : Product) (hp : p ∈ runPipeline env docs) :
    ∃ d ∈ docs, processDoc env d = some p := by
  induction docs with
  | nil => cases hp
  | cons d ds ih =>
    rw [runPipeline] at hp
    cases hpd : processDoc env d with
    | none =>
      rw [hpd] at hp
      obtain ⟨e, he, hh⟩ := ih hp
      exact ⟨e, List.mem_cons_of_mem d he, hh⟩
    | some q =>
      rw [hpd] at hp
      rcases List.mem_cons.mp hp with rfl | hmem
      · exact ⟨d, List.mem_cons_self d ds, hpd⟩
      · obtain ⟨e, he, hh⟩ := ih hmem
        exact ⟨e, List.mem_cons_of_mem d he, hh⟩

/-- C3: every product in the final collection has a present, non-negative
price amount — the Price type admits only a number for the amount, and
the modelled schema validation admits only non-negative amounts, so every
record of every pipeline run satisfies the invariant. -/
theorem C3_price_nonnegative (env : GenService) (docs : List RawDocument)
    (p : Product) (hp : p ∈ runPipeline env docs) :
    0 ≤ p.price.price := by
  obtain ⟨d, _, hd⟩ := runPipeline_mem env docs p hp
  exact (processDoc_sound env d p hd).1

/-- C3 witness: the invariant read off the product of the demonstration
run. -/
theorem C3_price_nonnegative_witness : 0 ≤ demoProduct.price.price :=
  C3_price_nonnegative demoEnv [demoDoc] demoProduct (by decide)

/-- C5: every image URL of every product in the final collection belongs
to the verified candidate set produced for the source document of that
product by the Image Candidate Pipeline; the generator selects from that
closed set, so no unverified or invented URL reaches a final record. -/
theorem C5_image_urls_verified (env : GenService) (docs : List RawDocument)
    (p : Product) (hp : p ∈ runPipeline env docs) :
    ∃ d ∈ docs, ∀ u ∈ p.image_urls, u ∈ verifiedImageUrls d.html := by
  obtain ⟨d, hd, hpd⟩ := runPipeline_mem env docs p hp
  exact ⟨d, hd, (processDoc_sound env d p hpd).2.1⟩

/-- C5 witness: the demonstration product draws its single image URL from
the verified candidate set of the demonstration document. -/
theorem C5_image_urls_verified_witness :
    ∃ d ∈ [demoDoc], ∀ u ∈ demoProduct.image_urls,
      u ∈ verifiedImageUrls d.html :=
  C5_image_urls_verified demoEnv [demoDoc] demoProduct (by decide)

/-- C4: the variants field of a Product is always a list, possibly empty
and never null: the modelled schema validation accepts a response only
when it supplies an actual variant list and passes that list through
unchanged, and rejects a response whose variants are null or absent; on
the serving side the detail page coalesces a missing runtime variants
field into the empty list. -/
theorem C4_variants_never_null :
    (∀ (id : ℚ) (verified : List String) (r : GenResponse) (p : Product),
        validateResponse id verified r = some p →
        ∃ vs, r.variants = some vs ∧ p.variants = vs) ∧
    (∀ (id : ℚ) (verified : List String) (r : GenResponse),
        r.variants = none → validateResponse id verified r = none) ∧
    (∀ vs, pdpVariants (some vs) = vs) ∧
    pdpVariants none = [] := by
  refine ⟨fun id verified r p h => (validateResponse_sound id verified r p h).2.2.2,
    fun id verified r hv => ?_, fun vs => rfl, rfl⟩
  cases hval : validateResponse id verified r with
  | none => rfl
  | some p =>
    obtain ⟨vs, hvs, _⟩ := (validateResponse_sound id verified r p hval).2.2.2
    rw [hv] at hvs
    cases hvs

/-- C4 witness: the demonstration response carries an explicit (empty)
variant list and the validated demonstration product preserves it. -/
theorem C4_variants_never_null_witness :
    ∃ vs, demoResponse.variants = some vs ∧ demoProduct.variants = vs :=
  C4_variants_never_null.1 7 ["http://cdn/a.jpg"] demoResponse demoProduct
    (by decide)

/-- A left fold of the pairwise maximum stays within the folded list and
its start. -/
theorem foldl_better_mem (c : ImageCandidate) (cs : List ImageCandidate) :
    cs.foldl better c ∈ c :: cs := by
  induction cs generalizing c with
  | nil => exact List.mem_singleton.mpr rfl
  | cons d ds ih =>
    rw [List.foldl_cons]
    have hbd : better c d = c ∨ better c d = d := by
      rw [better]
      split_ifs
      · exact Or.inr rfl
      · exact Or.inl rfl
    rcases List.mem_cons.mp (ih (better c d)) with h1 | h1
    · rw [h1]
      rcases hbd with h2 | h2 <;> rw [h2]
      · exact List.mem_cons_self c (d :: ds)
      · exact List.mem_cons_of_mem c (List.mem_cons_self d ds)
    · exact List.mem_cons_of_mem c (List.mem_cons_of_mem d h1)

/-- The chosen group representative is a member of the group. -/
theorem pickBest_mem (l : List ImageCandidate) (c : ImageCandidate)
    (h : pickBest l = some c) : c ∈ l := by
  cases l with
  | nil => cases h
  | cons a as =>
    rw [pickBest] at h
    injection h with h
    rw [← h]
    exact foldl_better_mem a as

/-- Members of a key group carry that key and come from the list. -/
theorem candidatesWithKey_spec (k : String) (l : List ImageCandidate)
    (c : ImageCandidate) (h : c ∈ candidatesWithKey k l) :
    keyOf c = k ∧ c ∈ l := by
  rw [candidatesWithKey] at h
  have h2 := List.mem_filter.mp h
  exact ⟨by simpa using h2.2, h2.1⟩

/-- A key occurring in the list has a nonempty group. -/
theorem candidatesWithKey_ne_nil (k : String) (l : List ImageCandidate)
    (h : k ∈ l.map keyOf) : candidatesWithKey k l ≠ [] := by
  obtain ⟨c, hc, rfl⟩ := List.mem_map.mp h
  intro hnil
  have hmem : c ∈ candidatesWithKey (keyOf c) l := by
    rw [candidatesWithKey]
    exact List.mem_filter.mpr ⟨hc, by simp⟩
  rw [hnil] at hmem
  cases hmem

/-- A nonempty group has a representative. -/
theorem pickBest_isSome (l : List ImageCandidate) (h : l ≠ []) :
    ∃ c, pickBest l = some c := by
  cases l with
  | nil => exact absurd rfl h
  | cons a as => exact ⟨as.foldl better a, rfl⟩

/-- Collapsing the groups of a list of keys occurring in the candidate
list reproduces exactly those keys. -/
theorem filterMap_pickBest_keys (l : List ImageCandidate) (ks : List String)
    (h : ∀ k ∈ ks, k ∈ l.map keyOf) :
    (ks.filterMap (fun k => pickBest (candidatesWithKey k l))).map keyOf =
      ks := by
  induction ks with
  | nil => rfl
  | cons k ks ih =>
    obtain ⟨c, hc⟩ := pickBest_isSome _
      (candidatesWithKey_ne_nil k l (h k (List.mem_cons_self k ks)))
    have hkey := (candidatesWithKey_spec k l c (pickBest_mem _ c hc)).1
    rw [List.filterMap_cons_some (f := fun x => pickBest (candidatesWithKey x l)) hc,
      List.map_cons, hkey, ih (fun x hx => h x (List.mem_cons_of_mem k hx))]

/-- The deduplicated list carries each surviving key exactly once, in
first-occurrence order. -/
theorem dedupImages_map_keyOf (l : List ImageCandidate) :
    (dedupImages l).map keyOf = (l.map keyOf).dedup := by
  rw [dedupImages]
  exact filterMap_pickBest_keys l _ (fun k hk => List.mem_dedup.mp hk)

/-- Deduplication does not change a list whose keys are already pairwise
distinct. -/
theorem dedupImages_eq_self (l : List ImageCandidate)
    (h : (l.map keyOf).Nodup) : dedupImages l = l := by
  induction l with
  | nil => rfl
  | cons c t ih =>
    rw [List.map_cons, List.nodup_cons] at h
    obtain ⟨hnotin, hnodup⟩ := h
    have hdedup : (t.map keyOf).dedup = t.map keyOf :=
      List.dedup_eq_self.mpr hnodup
    have hck : candidatesWithKey (keyOf c) (c :: t) = [c] := by
      rw [candidatesWithKey, List.filter_cons]
      have hpc : (keyOf c == keyOf c) = true := by simp
      rw [if_pos hpc]
      have hnil : t.filter (fun x => keyOf x == keyOf c) = [] := by
        rw [List.filter_eq_nil_iff]
        intro a ha hcon
        exact hnotin (beq_iff_eq.mp hcon ▸ List.mem_map_of_mem keyOf ha)
      rw [hnil]
    have hpick : pickBest (candidatesWithKey (keyOf c) (c :: t)) = some c := by
      rw [hck]
      rfl
    rw [dedupImages, List.map_cons, List.dedup_cons_of_not_mem hnotin, hdedup,
      List.filterMap_cons_some
        (f := fun x => pickBest (candidatesWithKey x (c :: t))) hpick]
    have hcong : (t.map keyOf).filterMap
          (fun k => pickBest (candidatesWithKey k (c :: t))) =
        (t.map keyOf).filterMap (fun k => pickBest (candidatesWithKey k t)) := by
      apply List.filterMap_congr
      intro k hk
      have hne : (keyOf c == k) = false := by
        simp only [beq_eq_false_iff_ne, ne_eq]
        intro hkc
        exact hnotin (hkc ▸ hk)
      rw [candidatesWithKey, candidatesWithKey, List.filter_cons, if_neg]
      simp [hne]
    rw [hcong]
    have hrest : (t.map keyOf).filterMap
        (fun k => pickBest (candidatesWithKey k t)) = dedupImages t := by
      rw [dedupImages, hdedup]
    rw [hrest, ih hnodup]

/-- C6: image deduplication is idempotent — applying the dedup step to its
own output yields exactly the same list as applying it once. -/
theorem C6_dedup_idempotent (l : List ImageCandidate) :
    dedupImages (dedupImages l) = dedupImages l :=
  dedupImages_eq_self (dedupImages l)
    (by rw [dedupImages_map_keyOf]; exact List.nodup_dedup _)

/-- C7: the Structured-Data Extractor and the Content Distiller are
deterministic — their outputs are functions of the document bytes alone,
so two runs over an unchanged document (even reloaded under a different
identifier or origin) produce byte-for-byte identical truth sheets and
distilled content. -/
theorem C7_stage_determinism (d e : RawDocument) (h : d.html = e.html) :
    docTruthSheet d = docTruthSheet e ∧ docDistill d = docDistill e := by
  rw [docTruthSheet, docTruthSheet, docDistill, docDistill, h]
  exact ⟨rfl, rfl⟩

/-- C7 witness: the demonstration document and its byte-identical copy
under another identifier yield identical stage outputs. -/
theorem C7_stage_determinism_witness :
    docTruthSheet demoDoc = docTruthSheet demoDocCopy ∧
    docDistill demoDoc = docDistill demoDocCopy :=
  C7_stage_determinism demoDoc demoDocCopy rfl

/-- The orchestrator output is exactly the per-document successes, in
input order. -/
theorem runPipeline_eq_filterMap (env : GenService) (docs : List RawDocument) :
    runPipeline env docs = docs.filterMap (processDoc env) := by
  induction docs with
  | nil => rfl
  | cons d ds ih =>
    cases hpd : processDoc env d with
    | none =>
      rw [runPipeline, hpd, List.filterMap_cons_none hpd, ih]
    | some p =>
      rw [runPipeline, hpd, List.filterMap_cons_some hpd, ih]

/-- C8: per-document failures never abort the batch — the (total)
orchestrator run yields exactly the subset of documents that succeeded,
and a document that fails at any stage contributes nothing while leaving
the output for every other document unchanged. -/
theorem C8_failure_isolation (env : GenService) (docs xs ys : List RawDocument)
    (d : RawDocument) :
    runPipeline env docs = docs.filterMap (processDoc env) ∧
    (processDoc env d = none →
        runPipeline env (xs ++ d :: ys) = runPipeline env (xs ++ ys)) := by
  refine ⟨runPipeline_eq_filterMap env docs, fun hfail => ?_⟩
  rw [runPipeline_eq_filterMap, runPipeline_eq_filterMap,
    List.filterMap_append, List.filterMap_append,
    List.filterMap_cons_none hfail]

/-- C8 witness: under the flaky service the bad document times out on all
attempts and drops out, while the demonstration document still produces
its product; the run equals the filtered successes. -/
theorem C8_failure_isolation_witness :
    runPipeline flakyEnv [demoDoc, badDoc] = runPipeline flakyEnv [demoDoc] ∧
    runPipeline flakyEnv [demoDoc, badDoc] =
      [demoDoc, badDoc].filterMap (processDoc flakyEnv) := by
  constructor
  · exact (C8_failure_isolation flakyEnv [] [demoDoc] [] badDoc).2 (by decide)
  · exact (C8_failure_isolation flakyEnv [demoDoc, badDoc] [] [] badDoc).1

end Scraper
